import Mathlib

/-!
Verification of the LoggedIn repository's log-analysis engine.

Shallow embedding of the Python sources:
  * `Program/App/app.py`        — in-memory `LogParser`, `LogStorage`, `LogAnalyser`
  * `Program/Logs/logparser.py` — regex-based `LogParser`
  * `Program/Logs/loganalyser.py` — store-backed `LogAnalyser` (sqlite)
  * `Logs/logstorage.py`        — `LogStorage._parse_timestamp`

Python dictionaries are modelled as association lists with insertion order,
datetimes as a six-field structure linearised by `totalSeconds`, and machine
behaviour such as `UnboundLocalError` by an `Except` result.
-/

namespace LoggedIn

/-! ## Calendar and timestamps -/

/-- A timezone-naive datetime, mirroring Python `datetime.datetime`
(microseconds are always zero in this codebase's wire format). -/
structure DateTime where
  year : Nat
  month : Nat
  day : Nat
  hour : Nat
  minute : Nat
  second : Nat
deriving DecidableEq

/-- Gregorian leap-year rule, as used by Python's `datetime`. -/
def isLeapYear (y : Nat) : Bool :=
  y % 4 == 0 && (y % 100 != 0 || y % 400 == 0)

/-- Length of a month, as validated by the `datetime` constructor. -/
def daysInMonth (y m : Nat) : Nat :=
  if m == 2 then (if isLeapYear y then 29 else 28)
  else if m == 4 || m == 6 || m == 9 || m == 11 then 30
  else 31

/-- Days in all years before year `y` (proleptic Gregorian, year 1 first),
matching Python `datetime.toordinal`'s year part. -/
def daysBeforeYear (y : Nat) : Nat :=
  365 * (y - 1) + (y - 1) / 4 + (y - 1) / 400 - (y - 1) / 100

/-- Days in the months of year `y` before month `m`. -/
def daysBeforeMonth (y m : Nat) : Nat :=
  ((List.range (m - 1)).map (fun k => daysInMonth y (k + 1))).foldl (· + ·) 0

/-- Python `datetime.toordinal`: 0001-01-01 is day 1. -/
def toOrdinal (d : DateTime) : Nat :=
  daysBeforeYear d.year + daysBeforeMonth d.year d.month + d.day

/-- Chronological linearisation of a datetime, in seconds.  For valid dates
this is strictly monotone in Python's datetime ordering, so sorting by it and
taking differences reproduces `sorted` and `timedelta.total_seconds()`. -/
def totalSeconds (d : DateTime) : Nat :=
  toOrdinal d * 86400 + d.hour * 3600 + d.minute * 60 + d.second

/-- Digits of a fixed-width numeric field to a number; `none` if any
character is not a decimal digit. -/
def digitsToNat? (cs : List Char) : Option Nat :=
  if cs.all Char.isDigit then
    some (cs.foldl (fun n c => n * 10 + (c.toNat - 48)) 0)
  else none

/-- `datetime.strptime(s, '%Y%m%dT%H%M%SZ')` on the codebase's fixed-width
wire format `YYYYMMDDTHHMMSSZ`: four-digit year, zero-padded fields, literal
`T` and `Z`, with the field-range and day-of-month validation the `datetime`
constructor performs.  Returns `none` where Python raises `ValueError`. -/
def parseTimestamp (s : String) : Option DateTime :=
  let cs := s.data
  if cs.length == 16 && cs.getD 8 ' ' == 'T' && cs.getD 15 ' ' == 'Z' then
    match digitsToNat? (cs.take 4), digitsToNat? ((cs.drop 4).take 2),
          digitsToNat? ((cs.drop 6).take 2), digitsToNat? ((cs.drop 9).take 2),
          digitsToNat? ((cs.drop 11).take 2), digitsToNat? ((cs.drop 13).take 2) with
    | some y, some mo, some da, some h, some mi, some se =>
        if 1 ≤ y && 1 ≤ mo && mo ≤ 12 && 1 ≤ da && da ≤ daysInMonth y mo &&
           h ≤ 23 && mi ≤ 59 && se ≤ 59 then
          some ⟨y, mo, da, h, mi, se⟩
        else none
    | _, _, _, _, _, _ => none
  else none

/-- Zero-pad a number to two digits, as `datetime.isoformat` renders fields. -/
def pad2 (n : Nat) : String :=
  if n < 10 then "0" ++ toString n else toString n

/-- Zero-pad a year to four digits. -/
def pad4 (n : Nat) : String :=
  if n < 10 then "000" ++ toString n
  else if n < 100 then "00" ++ toString n
  else if n < 1000 then "0" ++ toString n
  else toString n

/-- Python `datetime.isoformat()` for a whole-second datetime. -/
def isoformat (d : DateTime) : String :=
  pad4 d.year ++ "-" ++ pad2 d.month ++ "-" ++ pad2 d.day ++ "T" ++
  pad2 d.hour ++ ":" ++ pad2 d.minute ++ ":" ++ pad2 d.second

/-- The optional fractional-second tail of an isoformat timestamp: empty, or
`.` followed by exactly three or six digits (`fromisoformat`'s grammar, and
what `datetime.isoformat()` itself emits for nonzero microseconds). -/
def isoFracOk (cs : List Char) : Bool :=
  match cs with
  | [] => true
  | '.' :: rest => (rest.length == 3 || rest.length == 6) && rest.all Char.isDigit
  | _ => false

/-- `datetime.fromisoformat` on the `YYYY-MM-DDTHH:MM:SS[.fff[fff]]` forms
this codebase's own storage produces (`datetime.isoformat()` output, with or
without microseconds); `none` where Python raises.  The model's datetimes
carry whole seconds, so a validated fractional part is truncated — nothing
proved below inspects sub-second values: the unbound-local error fires
before the parsed value is used, and the remaining statements only ask
whether a row parses at all. -/
def parseIso (s : String) : Option DateTime :=
  let cs := s.data
  if 19 ≤ cs.length && cs.getD 4 ' ' == '-' && cs.getD 7 ' ' == '-' &&
     cs.getD 10 ' ' == 'T' && cs.getD 13 ' ' == ':' && cs.getD 16 ' ' == ':' &&
     isoFracOk (cs.drop 19) then
    match digitsToNat? (cs.take 4), digitsToNat? ((cs.drop 5).take 2),
          digitsToNat? ((cs.drop 8).take 2), digitsToNat? ((cs.drop 11).take 2),
          digitsToNat? ((cs.drop 14).take 2), digitsToNat? ((cs.drop 17).take 2) with
    | some y, some mo, some da, some h, some mi, some se =>
        if 1 ≤ y && 1 ≤ mo && mo ≤ 12 && 1 ≤ da && da ≤ daysInMonth y mo &&
           h ≤ 23 && mi ≤ 59 && se ≤ 59 then
          some ⟨y, mo, da, h, mi, se⟩
        else none
    | _, _, _, _, _, _ => none
  else none

/-! ## Records (Python dicts from the token parser) -/

/-- A parsed log record: a Python dict of string keys and values, modelled as
an insertion-ordered association list with unique keys. -/
abbrev Record := List (String × String)

/-- Python `dict.get(k)`. -/
def rget? (r : Record) (k : String) : Option String :=
  (r.find? (fun p => p.1 == k)).map Prod.snd

/-- Python `dict.get(k, d)`. -/
def rgetD (r : Record) (k d : String) : String :=
  (rget? r k).getD d

/-- Python `d[k] = v`: overwrite in place if the key exists (keeping its
position), otherwise append. -/
def dictInsert (d : Record) (k v : String) : Record :=
  match d with
  | [] => [(k, v)]
  | (k1, v1) :: rest =>
      if k1 == k then (k1, v) :: rest else (k1, v1) :: dictInsert rest k v

/-- Split a character list at every whitespace character, keeping empty
chunks; filtering out the empty chunks afterwards reproduces Python
`str.split()` with no argument. -/
def splitChunks : List Char → List (List Char)
  | [] => [[]]
  | c :: rest =>
      let r := splitChunks rest
      if c.isWhitespace then [] :: r
      else
        match r with
        | [] => [[c]]
        | chunk :: rest2 => (c :: chunk) :: rest2

/-- `app.py LogParser.parse_line`: split the line on whitespace, keep the
tokens containing `=`, split each at its first `=`, build a dict; `None`
(here `none`) when no token yields a pair. -/
def tokenParseLine (line : String) : Option Record :=
  let parts := (splitChunks line.data).filter (fun c => !c.isEmpty)
  let d := parts.foldl
    (fun acc part =>
      if part.contains '=' then
        dictInsert acc (String.mk (part.takeWhile (fun c => c != '=')))
          (String.mk ((part.dropWhile (fun c => c != '=')).drop 1))
      else acc) []
  if d.isEmpty then none else some d

/-! ## Regex line parser (`Program/Logs/logparser.py`) -/

/-- Result of `LogParser._parse_windows_timestamp`: a datetime on successful
`strptime`, otherwise the unparsed token itself (the `except ValueError`
branch returns `timestamp_str`). -/
inductive TsVal where
  | dt (d : DateTime)
  | raw (s : String)
deriving DecidableEq

/-- The record produced by `logparser.py LogParser.parse_line`: the regex
group dict after `int()` on `event_id` and timestamp conversion. -/
structure ParsedLog where
  event_id : Nat
  timestamp : TsVal
  computer : String
  user : String
deriving DecidableEq

/-- Match a literal piece of the regex, returning the remaining input. -/
def dropLit : List Char → List Char → Option (List Char)
  | [], cs => some cs
  | _ :: _, [] => none
  | l :: ls, c :: cs => if c == l then dropLit ls cs else none

/-- Match a nonempty maximal run of characters satisfying `p` (the regex
pieces `\d+`, `\s+`, `\S+`, which here never need backtracking because each
is followed by a character class disjoint from it). -/
def span1 (p : Char → Bool) (cs : List Char) : Option (List Char × List Char) :=
  let t := cs.takeWhile p
  if t.isEmpty then none else some (t, cs.dropWhile p)

/-- `LogParser._parse_windows_timestamp`: strict `strptime`, falling back to
the unparsed token string on `ValueError`. -/
def parseWindowsTimestamp (s : String) : TsVal :=
  match parseTimestamp s with
  | some d => TsVal.dt d
  | none => TsVal.raw s

/-- `logparser.py LogParser.parse_line`: `re.match` of
`EventID=(\d+)\s+TimeCreated=(\S+)\s+Computer=(\S+)\s+User=(\S+)` against the
start of the line, then `int()` on the event id and timestamp conversion;
`none` when the pattern does not match. -/
def regexParseLine (line : String) : Option ParsedLog :=
  match dropLit "EventID=".data line.data with
  | none => none
  | some r1 =>
    match span1 Char.isDigit r1 with
    | none => none
    | some (eid, r2) =>
      match span1 Char.isWhitespace r2 with
      | none => none
      | some (_, r3) =>
        match dropLit "TimeCreated=".data r3 with
        | none => none
        | some r4 =>
          match span1 (fun c => !c.isWhitespace) r4 with
          | none => none
          | some (ts, r5) =>
            match span1 Char.isWhitespace r5 with
            | none => none
            | some (_, r6) =>
              match dropLit "Computer=".data r6 with
              | none => none
              | some r7 =>
                match span1 (fun c => !c.isWhitespace) r7 with
                | none => none
                | some (comp, r8) =>
                  match span1 Char.isWhitespace r8 with
                  | none => none
                  | some (_, r9) =>
                    match dropLit "User=".data r9 with
                    | none => none
                    | some r10 =>
                      match span1 (fun c => !c.isWhitespace) r10 with
                      | none => none
                      | some (usr, _) =>
                        some { event_id :=
                                 eid.foldl (fun n c => n * 10 + (c.toNat - 48)) 0,
                               timestamp := parseWindowsTimestamp (String.mk ts),
                               computer := String.mk comp,
                               user := String.mk usr }

/-! ## Storage timestamp normaliser (`Logs/logstorage.py`) -/

/-- `LogStorage._parse_timestamp`: an absent or empty timestamp string, and a
string failing strict `strptime`, are both replaced by the current wall-clock
time (`datetime.now().isoformat()`); `now` is passed explicitly here. -/
def storageParseTimestamp (now : DateTime) (t : Option String) : String :=
  match t with
  | none => isoformat now
  | some s =>
      if s == "" then isoformat now
      else
        match parseTimestamp s with
        | some d => isoformat d
        | none => isoformat now

/-! ## In-memory analyser (`app.py LogAnalyser`), over the stored records -/

/-- `Counter`/dict bump: increment the entry for `k` in place, or append a
fresh entry with count 1; `items()` order is first-insertion order. -/
def bumpCount {α : Type} [BEq α] : List (α × Nat) → α → List (α × Nat)
  | [], k => [(k, 1)]
  | (k1, n) :: rest, k =>
      if k1 == k then (k1, n + 1) :: rest else (k1, n) :: bumpCount rest k

/-- `LogAnalyser.count_failed_logins`: count EventID 4625 records per user
(missing users under `'unknown'`), returning `Counter.items()` in
first-insertion order, filtered to positive counts. -/
def countFailedLogins (logs : List Record) : List (String × Nat) :=
  (logs.foldl
    (fun acc log =>
      if rget? log "EventID" == some "4625" then
        bumpCount acc (rgetD log "User" "unknown")
      else acc) []).filter (fun p => 0 < p.2)

/-- One entry of `LogAnalyser.get_login_timeline`'s result. -/
structure TimelineEvent where
  timestamp : DateTime
  event_type : String
  user : String
  computer : String
deriving DecidableEq

/-- The timeline entry contributed by one record: present exactly for
EventID 4624/4625 records whose populated `TimeCreated` parses strictly;
a missing or empty `TimeCreated`, and a `ValueError` from `strptime`, both
contribute nothing (`pass` in the `except` branch). -/
def timelineEntry? (log : Record) : Option TimelineEvent :=
  if rget? log "EventID" == some "4624" || rget? log "EventID" == some "4625" then
    let timeStr := rgetD log "TimeCreated" ""
    if timeStr == "" then none
    else
      match parseTimestamp timeStr with
      | some dt =>
          some { timestamp := dt,
                 event_type :=
                   if rget? log "EventID" == some "4624" then "Success" else "Failure",
                 user := rgetD log "User" "unknown",
                 computer := rgetD log "Computer" "unknown" }
      | none => none
  else none

/-- `LogAnalyser.get_login_timeline`: the record scan in order, keeping the
entries `timelineEntry?` yields. -/
def getLoginTimeline (logs : List Record) : List TimelineEvent :=
  logs.filterMap timelineEntry?

/-- Append `t` to `u`'s group (`defaultdict(list)` with insertion order). -/
def addFail : List (String × List Nat) → String → Nat → List (String × List Nat)
  | [], u, t => [(u, [t])]
  | (v, ts) :: rest, u, t =>
      if v == u then (v, ts ++ [t]) :: rest else (v, ts) :: addFail rest u t

/-- The per-user failure groups of `detect_brute_force`: timestamps of the
timeline's `Failure` events grouped by user, in first-seen user order, each
timestamp linearised to seconds. -/
def groupFailures (tl : List TimelineEvent) : List (String × List Nat) :=
  tl.foldl
    (fun acc e =>
      if e.event_type == "Failure" then addFail acc e.user (totalSeconds e.timestamp)
      else acc) []

/-- Insertion sort on seconds, reproducing Python `sorted` on datetimes. -/
def insortNat (x : Nat) : List Nat → List Nat
  | [] => [x]
  | y :: ys => if x ≤ y then x :: y :: ys else y :: insortNat x ys

/-- Ascending sort of a list of seconds. -/
def sortNat (l : List Nat) : List Nat :=
  l.foldr insortNat []

/-- The sliding-window test of `detect_brute_force`: over the sorted times,
does some contiguous `threshold`-sized slice start-to-end span at most
`window` minutes?  `(t2 - t1).total_seconds() / 60 <= window` is the exact
rational comparison `t2 - t1 ≤ 60 * window` on whole seconds. -/
def hasDenseSlice (threshold window : Nat) : List Nat → Bool
  | [] => false
  | x :: rest =>
      (decide (threshold ≤ rest.length + 1) &&
        decide ((x :: rest).getD (threshold - 1) 0 - x ≤ 60 * window)) ||
      hasDenseSlice threshold window rest

/-- `LogAnalyser.detect_brute_force(threshold, time_window_minutes)`: a user
with at least `threshold` timeline failures is flagged, with their total
failure count, when some `threshold`-sized slice of the sorted failure times
spans at most the window; dict order is first-seen user order. -/
def detectBruteForce (logs : List Record) (threshold window : Nat) :
    List (String × Nat) :=
  (groupFailures (getLoginTimeline logs)).filterMap
    (fun p =>
      if threshold ≤ p.2.length && hasDenseSlice threshold window (sortNat p.2) then
        some (p.1, p.2.length)
      else none)

/-! ## Suspicious users (`app.py LogAnalyser.detect_suspicious_users`) -/

/-- Python `p in s` substring test on character lists. -/
def infixCheck (p : List Char) : List Char → Bool
  | [] => p.isEmpty
  | c :: rest => p.isPrefixOf (c :: rest) || infixCheck p rest

/-- Python `pattern in user` for strings. -/
def strContains (s pat : String) : Bool :=
  infixCheck pat.data s.data

/-- Lowercase a string, as Python `str.lower` on ASCII account names. -/
def strLower (s : String) : String :=
  String.mk (s.data.map Char.toLower)

/-- The fixed keyword list of `detect_suspicious_users`. -/
def suspiciousPatterns : List String :=
  ["hacker", "admin", "root", "test", "guest"]

/-- Python `set.add`, modelled in first-insertion order (the claims only use
membership, which is order-independent). -/
def addSet (l : List String) (x : String) : List String :=
  if x ∈ l then l else l ++ [x]

/-- The guard of `detect_suspicious_users` on one user value `u`: some
keyword is a substring of `u.lower()` and `u.lower() != 'backup_admin'`. -/
def suspCond (u : String) : Bool :=
  suspiciousPatterns.any (fun pat => strContains (strLower u) pat) &&
    !(strLower u == "backup_admin")

/-- `LogAnalyser.detect_suspicious_users`: a record's lowercased user is
tested for each keyword as a substring, with the single literal exclusion
`user != 'backup_admin'`; the original `log.get('User')` value is added.  The
guard can only hold when the `User` key is present (no keyword occurs in the
empty-string default), so adding `rgetD log "User" ""` is the same value. -/
def detectSuspiciousUsers (logs : List Record) : List String :=
  logs.foldl
    (fun acc log =>
      if suspCond (rgetD log "User" "") then addSet acc (rgetD log "User" "")
      else acc) []

/-! ## Unusual activity (`app.py LogAnalyser.detect_unusual_activity`) -/

/-- `hour_counts[h]`: how many timeline events fall in hour `h`. -/
def hourCount (tl : List TimelineEvent) (h : Nat) : Nat :=
  (tl.filter (fun e => e.timestamp.hour == h)).length

/-- `[h for h in range(0, 5) if hour_counts[h] > 0]`. -/
def unusualHours (tl : List TimelineEvent) : List Nat :=
  (List.range 5).filter (fun h => 0 < hourCount tl h)

/-- The "unusual login hours" message for a list of affected hours. -/
def hoursMsg (hs : List Nat) : String :=
  "Unusual login hours detected: " ++ String.intercalate ", " (hs.map toString) ++ ":00"

/-- The hours part of the findings: one message when any hour 0–4 has an
event, nothing otherwise. -/
def hoursFindings (tl : List TimelineEvent) : List String :=
  if (unusualHours tl).isEmpty then [] else [hoursMsg (unusualHours tl)]

/-- Add `c` to `u`'s computer set (`defaultdict(set)`), keeping first-seen
order for users and first-insertion order inside each set. -/
def addComputer : List (String × List String) → String → String →
    List (String × List String)
  | [], u, c => [(u, [c])]
  | (v, cs) :: rest, u, c =>
      if v == u then (v, addSet cs c) :: rest else (v, cs) :: addComputer rest u c

/-- `user_computers`: distinct computers per user over the timeline. -/
def userComputers (tl : List TimelineEvent) : List (String × List String) :=
  tl.foldl (fun acc e => addComputer acc e.user e.computer) []

/-- The multi-computer findings: one message per user seen on more than two
distinct computers. -/
def multiComputerFindings (tl : List TimelineEvent) : List String :=
  (userComputers tl).filterMap
    (fun p =>
      if 2 < p.2.length then
        some ("User " ++ p.1 ++ " logged in from multiple computers: " ++
          String.intercalate ", " p.2)
      else none)

/-- `LogAnalyser.detect_unusual_activity`: the hours finding (appended
first in the source) followed by the multi-computer findings. -/
def detectUnusualActivity (logs : List Record) : List String :=
  hoursFindings (getLoginTimeline logs) ++
    multiComputerFindings (getLoginTimeline logs)

/-! ## Event statistics (`app.py LogAnalyser.get_event_statistics`) -/

/-- The three frequency tables of `get_event_statistics`; the event-id
counter is keyed by `log.get('EventID')`, which can be `None`. -/
structure EventStats where
  event_counts : List (Option String × Nat)
  computer_activity : List (String × Nat)
  user_activity : List (String × Nat)
deriving DecidableEq

/-- `LogAnalyser.get_event_statistics`: count every record under its event
id, computer and user (the latter two defaulting to `'unknown'`). -/
def getEventStatistics (logs : List Record) : EventStats :=
  logs.foldl
    (fun st log =>
      { event_counts := bumpCount st.event_counts (rget? log "EventID"),
        computer_activity := bumpCount st.computer_activity (rgetD log "Computer" "unknown"),
        user_activity := bumpCount st.user_activity (rgetD log "User" "unknown") })
    ⟨[], [], []⟩

/-! ## Store-backed analyser (`Program/Logs/loganalyser.py`) -/

/-- Python `int()` on a trimmed decimal string with an optional sign; `none`
where Python raises `ValueError` (in particular on the empty string). -/
def parseIntStr (s : String) : Option Int :=
  match s.data with
  | [] => none
  | '-' :: rest => (digitsToNat? rest).map (fun n => -(n : Int))
  | '+' :: rest => (digitsToNat? rest).map (fun n => (n : Int))
  | cs => (digitsToNat? cs).map (fun n => (n : Int))

/-- The row loop of the store-backed `detect_brute_force`.  Each fetched row
is `(user, timestamp_text)`; an unparseable timestamp hits `continue`.  The
first comparison `now - timestamp <= window_td` with `window_td` unassigned
raises `UnboundLocalError`, modelled as an error result.  `windowMin?` is
`some m` exactly when `window_td = timedelta(minutes=m)` was assigned. -/
def bfLoop (now : DateTime) (windowMin? : Option Int) (threshold : Nat)
    (acc : List (String × List Nat)) :
    List (String × String) → Except String (List (String × Nat))
  | [] =>
      Except.ok (acc.filterMap
        (fun p => if threshold ≤ p.2.length then some (p.1, p.2.length) else none))
  | (u, ts) :: rest =>
      match parseIso ts with
      | none => bfLoop now windowMin? threshold acc rest
      | some t =>
          match windowMin? with
          | none => Except.error "UnboundLocalError"
          | some m =>
              if (totalSeconds now : Int) - (totalSeconds t : Int) ≤ 60 * m then
                bfLoop now windowMin? threshold (addFail acc u (totalSeconds t)) rest
              else
                bfLoop now windowMin? threshold acc rest

/-- Python `s.endswith(suffix)`. -/
def strEndsWith (s suffix : String) : Bool :=
  suffix.data.isSuffixOf s.data

/-- Python `s[:-1]`: the string without its last character. -/
def strDropLast (s : String) : String :=
  String.mk s.data.dropLast

/-- `loganalyser.py LogAnalyser.detect_brute_force(window, threshold)`:
`window_td` is assigned only inside `if window.endswith('m')`, where
`int(window[:-1])` may itself raise `ValueError`; the fetched failed-login
rows (already ordered by the store) are then filtered to those within the
window of `now` and grouped, keeping users with at least `threshold` recent
attempts. -/
def detectBruteForceStore (now : DateTime) (rows : List (String × String))
    (window : String) (threshold : Nat) : Except String (List (String × Nat)) :=
  if strEndsWith window "m" then
    match parseIntStr (strDropLast window) with
    | none => Except.error "ValueError"
    | some m => bfLoop now (some m) threshold [] rows
  else
    bfLoop now none threshold [] rows

/-! ## Generic fold and counter lemmas -/

/-- Total of the counts in a counter. -/
def sumCounts {α : Type} (l : List (α × Nat)) : Nat :=
  (l.map Prod.snd).sum

/-- First-occurrence deduplication, continuing from `acc`. -/
def dedupAux (acc : List String) (l : List String) : List String :=
  l.foldl (fun a u => if u ∈ a then a else a ++ [u]) acc

/-- The distinct elements of `l` in first-seen order. -/
def dedupFirst (l : List String) : List String :=
  dedupAux [] l

theorem sumCounts_bumpCount {α : Type} [BEq α] (l : List (α × Nat)) (k : α) :
    sumCounts (bumpCount l k) = sumCounts l + 1 := by
  induction l with
  | nil => rfl
  | cons p rest ih =>
      obtain ⟨k1, n⟩ := p
      by_cases h : (k1 == k) = true
      · simp [bumpCount, h, sumCounts, Nat.add_assoc, Nat.add_comm 1]
      · simp only [bumpCount, h, Bool.false_eq_true, if_false]
        simp [sumCounts] at ih ⊢
        omega

theorem keys_bumpCount (l : List (String × Nat)) (k : String) :
    (bumpCount l k).map Prod.fst =
      if k ∈ l.map Prod.fst then l.map Prod.fst else l.map Prod.fst ++ [k] := by
  induction l with
  | nil => simp [bumpCount]
  | cons p rest ih =>
      obtain ⟨k1, n⟩ := p
      by_cases h : k1 = k
      · subst h; simp [bumpCount]
      · have hb : (k1 == k) = false := by simp [h]
        by_cases hm : k ∈ rest.map Prod.fst
        · simp [bumpCount, hb, ih, hm, h, Ne.symm h]
        · simp [bumpCount, hb, ih, hm, h, Ne.symm h]

theorem pos_bumpCount {α : Type} [BEq α] (l : List (α × Nat)) (k : α)
    (h : ∀ p ∈ l, 0 < p.2) : ∀ p ∈ bumpCount l k, 0 < p.2 := by
  induction l with
  | nil =>
      intro p hp
      simp [bumpCount] at hp
      simp [hp]
  | cons q rest ih =>
      obtain ⟨k1, n⟩ := q
      intro p hp
      by_cases hk : (k1 == k) = true
      · simp [bumpCount, hk] at hp
        rcases hp with h1 | h2
        · simp [h1]
        · exact h p (by simp [h2])
      · simp [bumpCount, hk] at hp
        rcases hp with h1 | h2
        · exact h p (by simp [h1])
        · exact ih (fun q hq => h q (List.mem_cons_of_mem _ hq)) p h2

/-! ## `count_failed_logins` fold invariants -/

theorem countFold_sum (logs : List Record) :
    ∀ acc : List (String × Nat),
      sumCounts (logs.foldl
        (fun acc log =>
          if rget? log "EventID" == some "4625" then
            bumpCount acc (rgetD log "User" "unknown")
          else acc) acc) =
        sumCounts acc +
          (logs.filter (fun r => rget? r "EventID" == some "4625")).length := by
  induction logs with
  | nil => intro acc; simp
  | cons r rest ih =>
      intro acc
      by_cases h : (rget? r "EventID" == some "4625") = true
      · simp only [List.foldl_cons, List.filter_cons, h, if_true, ih,
          sumCounts_bumpCount, List.length_cons]
        omega
      · simp only [List.foldl_cons, List.filter_cons, h, Bool.false_eq_true,
          if_false, ih]

theorem countFold_keys (logs : List Record) :
    ∀ acc : List (String × Nat),
      (logs.foldl
        (fun acc log =>
          if rget? log "EventID" == some "4625" then
            bumpCount acc (rgetD log "User" "unknown")
          else acc) acc).map Prod.fst =
        dedupAux (acc.map Prod.fst)
          ((logs.filter (fun r => rget? r "EventID" == some "4625")).map
            (fun r => rgetD r "User" "unknown")) := by
  induction logs with
  | nil => intro acc; simp [dedupAux]
  | cons r rest ih =>
      intro acc
      by_cases h : (rget? r "EventID" == some "4625") = true
      · simp only [List.foldl_cons, List.filter_cons, h, if_true, ih,
          keys_bumpCount, List.map_cons, dedupAux, List.foldl_cons]
      · simp only [List.foldl_cons, List.filter_cons, h, Bool.false_eq_true,
          if_false, ih]

theorem countFold_pos (logs : List Record) :
    ∀ acc : List (String × Nat), (∀ p ∈ acc, 0 < p.2) →
      ∀ p ∈ logs.foldl
        (fun acc log =>
          if rget? log "EventID" == some "4625" then
            bumpCount acc (rgetD log "User" "unknown")
          else acc) acc, 0 < p.2 := by
  induction logs with
  | nil => intro acc hacc; simpa using hacc
  | cons r rest ih =>
      intro acc hacc
      by_cases h : (rget? r "EventID" == some "4625") = true
      · simp only [List.foldl_cons, h, if_true]
        exact ih _ (pos_bumpCount _ _ hacc)
      · simp only [List.foldl_cons, h, Bool.false_eq_true, if_false]
        exact ih _ hacc

/-- C2 (amended): for every record set, `countFailedLogins` lists each
failed-login user once, in first-seen order (not sorted by count), with
positive counts whose sum equals the number of failed-login records,
missing users counted under `'unknown'`. -/
theorem C2_amended (logs : List Record) :
    sumCounts (countFailedLogins logs) =
      (logs.filter (fun r => rget? r "EventID" == some "4625")).length ∧
    (countFailedLogins logs).map Prod.fst =
      dedupFirst ((logs.filter (fun r => rget? r "EventID" == some "4625")).map
        (fun r => rgetD r "User" "unknown")) ∧
    ∀ p ∈ countFailedLogins logs, 0 < p.2 := by
  have hpos := countFold_pos logs [] (by intro p hp; simp at hp)
  have hself : countFailedLogins logs =
      logs.foldl
        (fun acc log =>
          if rget? log "EventID" == some "4625" then
            bumpCount acc (rgetD log "User" "unknown")
          else acc) [] := by
    unfold countFailedLogins
    rw [List.filter_eq_self]
    intro a ha
    simpa using hpos a ha
  refine ⟨?_, ?_, ?_⟩
  · rw [hself, countFold_sum]; simp [sumCounts]
  · rw [hself, countFold_keys]; rfl
  · intro p hp; rw [hself] at hp; exact hpos p hp

/-- The record set refuting C2's sort claim: user `b` fails once before user
`a` fails twice. -/
def c2Logs : List Record :=
  [[("EventID", "4625"), ("User", "b")],
   [("EventID", "4625"), ("User", "a")],
   [("EventID", "4625"), ("User", "a")]]

/-- Is a counter listing sorted by count in descending order? -/
def sortedByCountDesc : List (String × Nat) → Bool
  | [] => true
  | [_] => true
  | p :: q :: rest => decide (q.2 ≤ p.2) && sortedByCountDesc (q :: rest)

/-- C2 counterexample: `countFailedLogins` returns `Counter.items()` in
first-seen order, so user `b` with 1 failure precedes user `a` with 2 and
the output is not sorted by count descending. -/
theorem C2_counterexample :
    countFailedLogins c2Logs = [("b", 1), ("a", 2)] ∧
    sortedByCountDesc (countFailedLogins c2Logs) = false := by
  constructor <;> rfl

/-- C2 witness: the amended theorem evaluated on the concrete record set. -/
theorem C2_witness :
    sumCounts (countFailedLogins c2Logs) =
      (c2Logs.filter (fun r => rget? r "EventID" == some "4625")).length ∧
    (0 : Nat) < (("b", 1) : String × Nat).2 :=
  ⟨(C2_amended c2Logs).1, (C2_amended c2Logs).2.2 ("b", 1) (by decide)⟩

/-! ## `detect_suspicious_users` membership -/

theorem mem_addSet (l : List String) (x y : String) :
    x ∈ addSet l y ↔ x ∈ l ∨ x = y := by
  unfold addSet
  by_cases h : y ∈ l
  · simp only [h, if_true]
    constructor
    · exact Or.inl
    · rintro (hx | rfl)
      · exact hx
      · exact h
  · simp [h]

theorem suspFold_mem (logs : List Record) :
    ∀ (acc : List String) (u : String),
      u ∈ logs.foldl
        (fun acc log =>
          if suspCond (rgetD log "User" "") then addSet acc (rgetD log "User" "")
          else acc) acc ↔
      u ∈ acc ∨ ∃ r ∈ logs, rgetD r "User" "" = u ∧ suspCond u = true := by
  induction logs with
  | nil => intro acc u; simp
  | cons r rest ih =>
      intro acc u
      by_cases h : suspCond (rgetD r "User" "") = true
      · simp only [List.foldl_cons, h, if_true, ih, mem_addSet]
        constructor
        · rintro (⟨hu | rfl⟩ | ⟨s, hs, hsu, hsc⟩)
          · exact Or.inl hu
          · exact Or.inr ⟨r, List.mem_cons_self r rest, rfl, h⟩
          · exact Or.inr ⟨s, List.mem_cons_of_mem _ hs, hsu, hsc⟩
        · rintro (hu | ⟨s, hs, hsu, hsc⟩)
          · exact Or.inl (Or.inl hu)
          · rcases List.mem_cons.mp hs with rfl | hs2
            · exact Or.inl (Or.inr hsu.symm)
            · exact Or.inr ⟨s, hs2, hsu, hsc⟩
      · simp only [List.foldl_cons, h, Bool.false_eq_true, if_false, ih]
        constructor
        · rintro (hu | ⟨s, hs, hsu, hsc⟩)
          · exact Or.inl hu
          · exact Or.inr ⟨s, List.mem_cons_of_mem _ hs, hsu, hsc⟩
        · rintro (hu | ⟨s, hs, hsu, hsc⟩)
          · exact Or.inl hu
          · rcases List.mem_cons.mp hs with rfl | hs2
            · rw [hsu] at h; exact absurd hsc h
            · exact Or.inr ⟨s, hs2, hsu, hsc⟩

/-- The record set of C1: both `backup_admin@domain.com` and
`admin@domain.com` appear, plus a literal `backup_admin` account. -/
def c1Logs : List Record :=
  [[("EventID", "4625"), ("User", "backup_admin@domain.com")],
   [("EventID", "4625"), ("User", "admin@domain.com")],
   [("EventID", "4624"), ("User", "backup_admin")]]

/-- C1 (amended): `detectSuspiciousUsers` flags exactly the user values that
contain a keyword case-insensitively and whose lowercase form is not the
literal `backup_admin`; consequently `admin@domain.com` is flagged, the
literal account `backup_admin` is not, but `backup_admin@domain.com` IS
flagged (the allow-list exclusion covers only the exact string). -/
theorem C1_amended :
    ("backup_admin@domain.com" ∈ detectSuspiciousUsers c1Logs ∧
     "admin@domain.com" ∈ detectSuspiciousUsers c1Logs ∧
     "backup_admin" ∉ detectSuspiciousUsers c1Logs) ∧
    ∀ (logs : List Record) (u : String),
      u ∈ detectSuspiciousUsers logs ↔
        ∃ r ∈ logs, rgetD r "User" "" = u ∧ suspCond u = true := by
  constructor
  · refine ⟨by decide, by decide, by decide⟩
  · intro logs u
    unfold detectSuspiciousUsers
    rw [suspFold_mem]
    simp

/-- C1 counterexample: on a record set containing both accounts,
`detectSuspiciousUsers` DOES contain `backup_admin@domain.com`, contrary to
the claim. -/
theorem C1_counterexample :
    "backup_admin@domain.com" ∈ detectSuspiciousUsers c1Logs ∧
    "admin@domain.com" ∈ detectSuspiciousUsers c1Logs := by
  constructor <;> decide

/-- C1 witness: the amended characterisation evaluated on a concrete record
set and user. -/
theorem C1_witness :
    "admin@domain.com" ∈
      detectSuspiciousUsers [[("EventID", "4624"), ("User", "admin@domain.com")]] :=
  (C1_amended.2 [[("EventID", "4624"), ("User", "admin@domain.com")]]
      "admin@domain.com").mpr
    ⟨[("EventID", "4624"), ("User", "admin@domain.com")], by decide, by decide, by decide⟩

/-! ## Parser claims -/

/-- C8: parsing the canonical formatted line with both line parsers and
re-extracting the fields is the identity: the regex parser yields
`event_id = 4624`, `computer = WS01`, `user = a@b.com` and the parsed
timestamp 2023-01-01T12:00:00, and the token parser reproduces the original
key/value pairs, whose `TimeCreated` value parses to the same datetime. -/
theorem C8_roundtrip :
    regexParseLine "EventID=4624 TimeCreated=20230101T120000Z Computer=WS01 User=a@b.com" =
      some { event_id := 4624, timestamp := TsVal.dt ⟨2023, 1, 1, 12, 0, 0⟩,
             computer := "WS01", user := "a@b.com" } ∧
    tokenParseLine "EventID=4624 TimeCreated=20230101T120000Z Computer=WS01 User=a@b.com" =
      some [("EventID", "4624"), ("TimeCreated", "20230101T120000Z"),
            ("Computer", "WS01"), ("User", "a@b.com")] ∧
    parseTimestamp "20230101T120000Z" = some ⟨2023, 1, 1, 12, 0, 0⟩ := by
  refine ⟨by decide, by decide, by decide⟩

/-- A structurally valid line whose `TimeCreated` token cannot be parsed. -/
def c3BadLine : String :=
  "EventID=4624 TimeCreated=notadate Computer=WS01 User=a@b.com"

/-- Does a parse result carry a successfully parsed datetime timestamp? -/
def timestampIsParsedDate : Option ParsedLog → Bool
  | some r =>
      match r.timestamp with
      | TsVal.dt _ => true
      | TsVal.raw _ => false
  | none => false

/-- C3 counterexample: on a line whose `TimeCreated` token fails to parse,
the line parser's record carries the unparsed token itself — not a datetime
at all, so in particular not the wall-clock time at parse time. -/
theorem C3_counterexample :
    regexParseLine c3BadLine =
      some { event_id := 4624, timestamp := TsVal.raw "notadate",
             computer := "WS01", user := "a@b.com" } ∧
    timestampIsParsedDate (regexParseLine c3BadLine) = false := by
  refine ⟨by decide, by decide⟩

/-- C3 (amended): on a timestamp parse failure the line parser still
produces a record, but that record's timestamp is the unparsed token; it is
the storage layer's timestamp normaliser (`LogStorage._parse_timestamp`)
that falls back to the current wall-clock time, both for unparseable and for
absent timestamp strings. -/
theorem C3_amended :
    (∀ s : String, parseTimestamp s = none →
       parseWindowsTimestamp s = TsVal.raw s) ∧
    (∀ (now : DateTime) (s : String), parseTimestamp s = none →
       storageParseTimestamp now (some s) = isoformat now) ∧
    (∀ now : DateTime, storageParseTimestamp now none = isoformat now) ∧
    regexParseLine c3BadLine =
      some { event_id := 4624, timestamp := TsVal.raw "notadate",
             computer := "WS01", user := "a@b.com" } := by
  refine ⟨?_, ?_, ?_, by decide⟩
  · intro s hs
    unfold parseWindowsTimestamp
    rw [hs]
  · intro now s hs
    unfold storageParseTimestamp
    by_cases h : (s == "") = true
    · simp [h]
    · simp only [h, Bool.false_eq_true, if_false]
      rw [hs]
  · intro now
    rfl

/-- C3 witness: the amended theorem evaluated at a concrete clock value and
the concrete unparseable token. -/
theorem C3_witness :
    parseWindowsTimestamp "notadate" = TsVal.raw "notadate" ∧
    storageParseTimestamp ⟨2024, 5, 6, 7, 8, 9⟩ (some "notadate") =
      isoformat ⟨2024, 5, 6, 7, 8, 9⟩ :=
  ⟨C3_amended.1 "notadate" (by decide),
   C3_amended.2.1 ⟨2024, 5, 6, 7, 8, 9⟩ "notadate" (by decide)⟩

/-! ## `detect_brute_force` invariants -/

/-- The failure-time group of user `u` in a grouping accumulator. -/
def getGroup (l : List (String × List Nat)) (u : String) : List Nat :=
  match l.find? (fun p => p.1 == u) with
  | some p => p.2
  | none => []

/-- The failure timestamps (in seconds) of user `u`, in timeline order. -/
def failTimes (tl : List TimelineEvent) (u : String) : List Nat :=
  (tl.filter (fun e => e.event_type == "Failure" && e.user == u)).map
    (fun e => totalSeconds e.timestamp)

/-- The sorted failure timestamps `detect_brute_force` slides over for user
`u` of the given record set. -/
def userFailTimes (logs : List Record) (u : String) : List Nat :=
  failTimes (getLoginTimeline logs) u

theorem getGroup_cons (w : String) (ws : List Nat)
    (rest : List (String × List Nat)) (u : String) :
    getGroup ((w, ws) :: rest) u = if w = u then ws else getGroup rest u := by
  by_cases h : w = u
  · have hb : (w == u) = true := by simp [h]
    simp [getGroup, List.find?, hb, h]
  · have hb : (w == u) = false := by simp [h]
    simp [getGroup, List.find?, hb, h]

theorem getGroup_addFail (l : List (String × List Nat)) (v : String) (t : Nat)
    (u : String) :
    getGroup (addFail l v t) u =
      if v = u then getGroup l u ++ [t] else getGroup l u := by
  induction l with
  | nil =>
      by_cases h : v = u <;> simp [addFail, getGroup_cons, getGroup, h]
  | cons p rest ih =>
      obtain ⟨w, ws⟩ := p
      by_cases hwv : w = v
      · subst hwv
        have hb : (w == w) = true := by simp
        by_cases hwu : w = u <;> simp [addFail, hb, getGroup_cons, hwu]
      · have hb : (w == v) = false := by simp [hwv]
        by_cases hwu : w = u
        · have hvu : ¬v = u := fun h => hwv (hwu.trans h.symm)
          have huv : ¬u = v := fun h => hvu h.symm
          simp [addFail, hb, getGroup_cons, hwu, hvu, huv]
        · simp [addFail, hb, getGroup_cons, hwu, ih]

theorem getGroup_groupFold (tl : List TimelineEvent) :
    ∀ (acc : List (String × List Nat)) (u : String),
      getGroup (tl.foldl
        (fun acc e =>
          if e.event_type == "Failure" then
            addFail acc e.user (totalSeconds e.timestamp)
          else acc) acc) u = getGroup acc u ++ failTimes tl u := by
  induction tl with
  | nil => intro acc u; simp [failTimes]
  | cons e rest ih =>
      intro acc u
      by_cases hf : (e.event_type == "Failure") = true
      · by_cases hu : e.user = u
        · have hfu : failTimes (e :: rest) u =
              totalSeconds e.timestamp :: failTimes rest u := by
            simp [failTimes, List.filter_cons, hf, hu]
          simp only [List.foldl_cons, hf, if_true, ih, getGroup_addFail, hu,
            if_true, hfu]
          simp
        · have hbu : (e.user == u) = false := by simp [hu]
          have hfu : failTimes (e :: rest) u = failTimes rest u := by
            simp [failTimes, List.filter_cons, hf, hbu]
          simp only [List.foldl_cons, hf, if_true, ih, getGroup_addFail, hu,
            if_false, hfu]
      · have hfu : failTimes (e :: rest) u = failTimes rest u := by
          simp [failTimes, List.filter_cons, hf]
        simp only [List.foldl_cons, hf, Bool.false_eq_true, if_false, ih, hfu]

theorem getGroup_groupFailures (tl : List TimelineEvent) (u : String) :
    getGroup (groupFailures tl) u = failTimes tl u := by
  unfold groupFailures
  rw [getGroup_groupFold]
  rfl

theorem keys_addFail_mem (l : List (String × List Nat)) (v : String) (t : Nat) :
    ∀ x ∈ (addFail l v t).map Prod.fst, x ∈ l.map Prod.fst ∨ x = v := by
  induction l with
  | nil => intro x hx; simp [addFail] at hx; exact Or.inr hx
  | cons p rest ih =>
      obtain ⟨w, ws⟩ := p
      intro x hx
      by_cases hwv : (w == v) = true
      · simp [addFail, hwv] at hx
        rcases hx with rfl | hx
        · exact Or.inl (by simp)
        · exact Or.inl (by simp [hx])
      · simp only [addFail, hwv, Bool.false_eq_true, if_false, List.map_cons,
          List.mem_cons] at hx
        rcases hx with rfl | hx
        · exact Or.inl (by simp)
        · rcases ih x hx with h1 | h2
          · exact Or.inl (by simp [h1])
          · exact Or.inr h2

theorem nodup_keys_addFail (l : List (String × List Nat)) (v : String) (t : Nat)
    (h : (l.map Prod.fst).Nodup) : ((addFail l v t).map Prod.fst).Nodup := by
  induction l with
  | nil => simp [addFail]
  | cons p rest ih =>
      obtain ⟨w, ws⟩ := p
      simp only [List.map_cons, List.nodup_cons] at h
      by_cases hwv : (w == v) = true
      · simpa [addFail, hwv, List.nodup_cons] using h
      · have hwv2 : w ≠ v := by simpa using hwv
        simp only [addFail, hwv, Bool.false_eq_true, if_false, List.map_cons,
          List.nodup_cons]
        refine ⟨?_, ih h.2⟩
        intro hmem
        rcases keys_addFail_mem rest v t w hmem with h1 | h2
        · exact h.1 h1
        · exact hwv2 h2

theorem nodup_keys_groupFold (tl : List TimelineEvent) :
    ∀ acc : List (String × List Nat), (acc.map Prod.fst).Nodup →
      ((tl.foldl
        (fun acc e =>
          if e.event_type == "Failure" then
            addFail acc e.user (totalSeconds e.timestamp)
          else acc) acc).map Prod.fst).Nodup := by
  induction tl with
  | nil => intro acc h; simpa using h
  | cons e rest ih =>
      intro acc h
      by_cases hf : (e.event_type == "Failure") = true
      · simp only [List.foldl_cons, hf, if_true]
        exact ih _ (nodup_keys_addFail _ _ _ h)
      · simp only [List.foldl_cons, hf, Bool.false_eq_true, if_false]
        exact ih _ h

theorem nodup_keys_groupFailures (tl : List TimelineEvent) :
    ((groupFailures tl).map Prod.fst).Nodup :=
  nodup_keys_groupFold tl [] (by simp)

theorem mem_getGroup (l : List (String × List Nat)) (u : String) (ts : List Nat)
    (hnd : (l.map Prod.fst).Nodup) (hm : (u, ts) ∈ l) : getGroup l u = ts := by
  induction l with
  | nil => cases hm
  | cons p rest ih =>
      obtain ⟨w, ws⟩ := p
      simp only [List.map_cons, List.nodup_cons] at hnd
      rcases List.mem_cons.mp hm with heq | hmem
      · obtain ⟨h1, h2⟩ := Prod.ext_iff.mp heq
        simp only at h1 h2
        subst h1; subst h2
        simp [getGroup_cons]
      · have hw : w ≠ u := by
          intro h
          exact hnd.1 (h.symm ▸ (List.mem_map_of_mem Prod.fst hmem))
        rw [getGroup_cons, if_neg hw]
        exact ih hnd.2 hmem

theorem getGroup_mem (l : List (String × List Nat)) (u : String) (ts : List Nat)
    (hg : getGroup l u = ts) (hne : ts ≠ []) : (u, ts) ∈ l := by
  induction l with
  | nil =>
      exact absurd (hg.symm.trans (by simp [getGroup])) hne
  | cons p rest ih =>
      obtain ⟨w, ws⟩ := p
      rw [getGroup_cons] at hg
      by_cases hw : w = u
      · rw [if_pos hw] at hg
        subst hw; subst hg
        exact List.mem_cons_self _ _
      · rw [if_neg hw] at hg
        exact List.mem_cons_of_mem _ (ih hg)

theorem length_insortNat (x : Nat) (l : List Nat) :
    (insortNat x l).length = l.length + 1 := by
  induction l with
  | nil => rfl
  | cons y ys ih =>
      by_cases h : x ≤ y
      · simp [insortNat, h]
      · simp [insortNat, h, ih]

theorem length_sortNat (l : List Nat) : (sortNat l).length = l.length := by
  unfold sortNat
  induction l with
  | nil => rfl
  | cons y ys ih => simp [List.foldr_cons, length_insortNat, ih]

theorem hasDenseSlice_iff (th w : Nat) (hth : 1 ≤ th) :
    ∀ l : List Nat, hasDenseSlice th w l = true ↔
      ∃ i, i + th ≤ l.length ∧ l.getD (i + th - 1) 0 - l.getD i 0 ≤ 60 * w := by
  intro l
  induction l with
  | nil =>
      simp only [hasDenseSlice, List.length_nil]
      constructor
      · intro h; cases h
      · rintro ⟨i, hi, _⟩; omega
  | cons x rest ih =>
      simp only [hasDenseSlice, Bool.or_eq_true, Bool.and_eq_true,
        decide_eq_true_eq, ih]
      constructor
      · rintro (⟨hlen, hspan⟩ | ⟨i, hi, hspan⟩)
        · exact ⟨0, by simpa [Nat.add_comm] using hlen, by simpa using hspan⟩
        · refine ⟨i + 1, by simpa [Nat.add_assoc, Nat.add_comm] using
            (by omega : i + th + 1 ≤ rest.length + 1), ?_⟩
          have h1 : i + 1 + th - 1 = (i + th - 1) + 1 := by omega
          rw [h1]
          simpa using hspan
      · rintro ⟨i, hi, hspan⟩
        cases i with
        | zero =>
            left
            constructor
            · simpa [Nat.add_comm] using hi
            · simpa using hspan
        | succ j =>
            right
            refine ⟨j, by simp at hi; omega, ?_⟩
            have h1 : j + 1 + th - 1 = (j + th - 1) + 1 := by omega
            rw [h1] at hspan
            simpa using hspan

theorem mem_detectBruteForce (logs : List Record) (th w : Nat) (u : String)
    (c : Nat) :
    (u, c) ∈ detectBruteForce logs th w ↔
      ∃ p ∈ groupFailures (getLoginTimeline logs), p.1 = u ∧
        (th ≤ p.2.length ∧ hasDenseSlice th w (sortNat p.2) = true) ∧
        c = p.2.length := by
  unfold detectBruteForce
  rw [List.mem_filterMap]
  constructor
  · rintro ⟨p, hp, hf⟩
    split at hf
    next hcond =>
      have hf2 := Option.some.inj hf
      have hu : p.1 = u := congrArg Prod.fst hf2
      have hc2 : p.2.length = c := congrArg Prod.snd hf2
      simp only [Bool.and_eq_true, decide_eq_true_eq] at hcond
      exact ⟨p, hp, hu, hcond, hc2.symm⟩
    next => cases hf
  · rintro ⟨p, hp, hu, ⟨hlen, hdense⟩, hc⟩
    refine ⟨p, hp, ?_⟩
    have hcond : (decide (th ≤ p.2.length) && hasDenseSlice th w (sortNat p.2)) = true := by
      simp [hlen, hdense]
    rw [if_pos hcond, hu, hc]

/-- The flagged user's failure group is exactly their timeline failure
times: any group entry whose key is `u` carries `userFailTimes logs u`. -/
theorem snd_eq_userFailTimes (logs : List Record) (u : String)
    (p : String × List Nat) (hp : p ∈ groupFailures (getLoginTimeline logs))
    (hu : p.1 = u) : p.2 = userFailTimes logs u := by
  have hp2 : (u, p.2) ∈ groupFailures (getLoginTimeline logs) := by
    have hp1 : (p.1, p.2) ∈ groupFailures (getLoginTimeline logs) := by
      rw [Prod.mk.eta]; exact hp
    rw [hu] at hp1; exact hp1
  have hg := mem_getGroup _ u p.2 (nodup_keys_groupFailures _) hp2
  rw [getGroup_groupFailures] at hg
  exact hg.symm

/-- A failed-login record for `hacker@bad.com` at the given time. -/
def mkFail (t : String) : Record :=
  [("EventID", "4625"), ("TimeCreated", t), ("Computer", "WS02"),
   ("User", "hacker@bad.com")]

/-- The record set of C4: failures at minutes 0, 1, 2, 20, 21, 22. -/
def c4Logs : List Record :=
  [mkFail "20230101T000000Z", mkFail "20230101T000100Z",
   mkFail "20230101T000200Z", mkFail "20230101T002000Z",
   mkFail "20230101T002100Z", mkFail "20230101T002200Z"]

/-- C4: on failures at minutes [0,1,2,20,21,22], `detectBruteForce 3 10`
flags the user with attempt count 6 (the total failure count); and in
general, for `threshold ≥ 1`, a user is flagged exactly when some contiguous
`threshold`-sized slice of the ascending-sorted failure timestamps spans at
most the window (here in seconds, `≤ 60·window`), the reported count always
being the user's total failure count. -/
theorem C4_bruteforce :
    detectBruteForce c4Logs 3 10 = [("hacker@bad.com", 6)] ∧
    ∀ (logs : List Record) (th w : Nat) (u : String), 1 ≤ th →
      ((∃ c, (u, c) ∈ detectBruteForce logs th w) ↔
        ∃ i, i + th ≤ (sortNat (userFailTimes logs u)).length ∧
          (sortNat (userFailTimes logs u)).getD (i + th - 1) 0 -
            (sortNat (userFailTimes logs u)).getD i 0 ≤ 60 * w) ∧
      ∀ c, (u, c) ∈ detectBruteForce logs th w →
        c = (userFailTimes logs u).length := by
  constructor
  · decide
  · intro logs th w u hth
    constructor
    · constructor
      · rintro ⟨c, hc⟩
        obtain ⟨p, hp, hu, ⟨hlen, hdense⟩, hceq⟩ :=
          (mem_detectBruteForce logs th w u c).mp hc
        rw [snd_eq_userFailTimes logs u p hp hu] at hdense
        exact (hasDenseSlice_iff th w hth _).mp hdense
      · rintro ⟨i, hi, hspan⟩
        have hth2 : th ≤ (userFailTimes logs u).length := by
          rw [length_sortNat] at hi; omega
        have hne : userFailTimes logs u ≠ [] := by
          intro h
          rw [h] at hth2
          simp at hth2
          omega
        have hmem : (u, userFailTimes logs u) ∈
            groupFailures (getLoginTimeline logs) :=
          getGroup_mem _ _ _ (getGroup_groupFailures _ u) hne
        refine ⟨(userFailTimes logs u).length,
          (mem_detectBruteForce logs th w u _).mpr
            ⟨(u, userFailTimes logs u), hmem, rfl,
             ⟨hth2, (hasDenseSlice_iff th w hth _).mpr ⟨i, hi, hspan⟩⟩, rfl⟩⟩
    · intro c hc
      obtain ⟨p, hp, hu, _, hceq⟩ := (mem_detectBruteForce logs th w u c).mp hc
      rw [hceq, snd_eq_userFailTimes logs u p hp hu]

/-- C4 witness: the general characterisation applied to the concrete record
set, with the dense slice at index 0. -/
theorem C4_witness :
    ∃ c, ("hacker@bad.com", c) ∈ detectBruteForce c4Logs 3 10 :=
  ((C4_bruteforce.2 c4Logs 3 10 "hacker@bad.com" (by decide)).1).mpr
    ⟨0, by decide, by decide⟩

/-- C5: a user with strictly fewer than `threshold` total failed logins is
never flagged by `detectBruteForce`, regardless of spacing or window. -/
theorem C5_threshold (logs : List Record) (th w : Nat) (u : String) (c : Nat)
    (h : (userFailTimes logs u).length < th) :
    (u, c) ∉ detectBruteForce logs th w := by
  intro hc
  obtain ⟨p, hp, hu, ⟨hlen, _⟩, _⟩ := (mem_detectBruteForce logs th w u c).mp hc
  rw [snd_eq_userFailTimes logs u p hp hu] at hlen
  omega

/-- The record set of C5: only four failures, one minute apart. -/
def c5Logs : List Record :=
  [mkFail "20230101T000000Z", mkFail "20230101T000100Z",
   mkFail "20230101T000200Z", mkFail "20230101T000300Z"]

/-- C5 witness: four tightly-spaced failures are not flagged at
threshold 5. -/
theorem C5_witness : ("hacker@bad.com", 4) ∉ detectBruteForce c5Logs 5 5 :=
  C5_threshold c5Logs 5 5 "hacker@bad.com" 4 (by decide)

/-! ## `get_login_timeline` integrity -/

theorem timelineEntry?_some (r : Record) (e : TimelineEvent)
    (h : timelineEntry? r = some e) :
    (rget? r "EventID" = some "4624" ∨ rget? r "EventID" = some "4625") ∧
    parseTimestamp (rgetD r "TimeCreated" "") = some e.timestamp := by
  unfold timelineEntry? at h
  by_cases hg : (rget? r "EventID" == some "4624" ||
      rget? r "EventID" == some "4625") = true
  · rw [if_pos hg] at h
    refine ⟨by simpa [Bool.or_eq_true, beq_iff_eq] using hg, ?_⟩
    by_cases hts : (rgetD r "TimeCreated" "" == "") = true
    · rw [if_pos hts] at h; cases h
    · rw [if_neg hts] at h
      cases hp : parseTimestamp (rgetD r "TimeCreated" "") with
      | none => rw [hp] at h; cases h
      | some dt =>
          rw [hp] at h
          have h2 := Option.some.inj h
          rw [← h2]
  · rw [if_neg hg] at h; cases h

theorem timelineEntry?_none_of_badtime (r : Record)
    (hne : rgetD r "TimeCreated" "" ≠ "")
    (hp : parseTimestamp (rgetD r "TimeCreated" "") = none) :
    timelineEntry? r = none := by
  unfold timelineEntry?
  by_cases hg : (rget? r "EventID" == some "4624" ||
      rget? r "EventID" == some "4625") = true
  · rw [if_pos hg]
    have hts : ¬((rgetD r "TimeCreated" "" == "") = true) := by simp [hne]
    rw [if_neg hts, hp]
  · rw [if_neg hg]

theorem filterMap_filter_eq {α β : Type} (f : α → Option β) (q : α → Bool)
    (h : ∀ a, q a = false → f a = none) :
    ∀ l : List α, (l.filter q).filterMap f = l.filterMap f := by
  intro l
  induction l with
  | nil => rfl
  | cons a rest ih =>
      by_cases hq : q a = true
      · rw [List.filter_cons, if_pos hq]
        simp only [List.filterMap_cons, ih]
      · have hq2 : q a = false := by simpa using hq
        rw [List.filter_cons, if_neg (by simp [hq2])]
        simp only [List.filterMap_cons, h a hq2, ih]

/-- C6: every element of `getLoginTimeline` comes from a 4624/4625 record of
the set whose populated `TimeCreated` parsed strictly to exactly that
element's timestamp (never a fallback), and removing every record with a
populated-but-unparseable `TimeCreated` leaves the timeline unchanged — such
records are silently absent. -/
theorem C6_timeline (logs : List Record) (e : TimelineEvent)
    (he : e ∈ getLoginTimeline logs) :
    (∃ r ∈ logs,
       (rget? r "EventID" = some "4624" ∨ rget? r "EventID" = some "4625") ∧
       parseTimestamp (rgetD r "TimeCreated" "") = some e.timestamp) ∧
    getLoginTimeline (logs.filter
      (fun r => !(decide (rgetD r "TimeCreated" "" ≠ "") &&
                  decide (parseTimestamp (rgetD r "TimeCreated" "") = none)))) =
      getLoginTimeline logs := by
  constructor
  · obtain ⟨r, hr, hfr⟩ := List.mem_filterMap.mp he
    have h2 := timelineEntry?_some r e hfr
    exact ⟨r, hr, h2.1, h2.2⟩
  · unfold getLoginTimeline
    apply filterMap_filter_eq
    intro a ha
    have ha2 : (decide (rgetD a "TimeCreated" "" ≠ "") &&
        decide (parseTimestamp (rgetD a "TimeCreated" "") = none)) = true := by
      simpa using ha
    simp only [Bool.and_eq_true, decide_eq_true_eq] at ha2
    exact timelineEntry?_none_of_badtime a ha2.1 ha2.2

/-- The record set of the C6 witness: one good login record, one whose
populated `TimeCreated` fails to parse. -/
def c6Logs : List Record :=
  [[("EventID", "4624"), ("TimeCreated", "20230101T120000Z"),
    ("Computer", "WS01"), ("User", "a@b.com")],
   [("EventID", "4625"), ("TimeCreated", "garbage"), ("User", "x")]]

/-- C6 witness: the theorem applied to the concrete record set at its only
timeline element. -/
theorem C6_witness :
    getLoginTimeline (c6Logs.filter
      (fun r => !(decide (rgetD r "TimeCreated" "" ≠ "") &&
                  decide (parseTimestamp (rgetD r "TimeCreated" "") = none)))) =
      getLoginTimeline c6Logs :=
  (C6_timeline c6Logs ⟨⟨2023, 1, 1, 12, 0, 0⟩, "Success", "a@b.com", "WS01"⟩
    (by decide)).2

/-! ## `detect_unusual_activity` hours finding -/

theorem mem_unusualHours (tl : List TimelineEvent) (h : Nat) :
    h ∈ unusualHours tl ↔ h ≤ 4 ∧ ∃ e ∈ tl, e.timestamp.hour = h := by
  unfold unusualHours
  rw [List.mem_filter, List.mem_range]
  constructor
  · rintro ⟨h5, hc⟩
    rw [decide_eq_true_eq] at hc
    obtain ⟨e, he⟩ := List.exists_mem_of_length_pos hc
    rw [List.mem_filter] at he
    exact ⟨by omega, e, he.1, by simpa using he.2⟩
  · rintro ⟨h4, e, he, hh⟩
    refine ⟨by omega, ?_⟩
    rw [decide_eq_true_eq]
    exact List.length_pos_of_mem (List.mem_filter.mpr ⟨he, by simp [hh]⟩)

theorem unusualHours_ne_nil (tl : List TimelineEvent) :
    unusualHours tl ≠ [] ↔ ∃ e ∈ tl, e.timestamp.hour ≤ 4 := by
  constructor
  · intro hne
    obtain ⟨h, hh⟩ := List.exists_mem_of_ne_nil _ hne
    obtain ⟨h4, e, he, hhe⟩ := (mem_unusualHours tl h).mp hh
    exact ⟨e, he, by omega⟩
  · rintro ⟨e, he, h4⟩ hnil
    have hmem : e.timestamp.hour ∈ unusualHours tl :=
      (mem_unusualHours tl _).mpr ⟨h4, e, he, rfl⟩
    rw [hnil] at hmem
    cases hmem

/-- The record set of C7: exactly one login, at hour 3. -/
def c7Logs : List Record :=
  [[("EventID", "4624"), ("TimeCreated", "20230101T030000Z"),
    ("Computer", "WS01"), ("User", "u@d.com")]]

/-- C7: on the record set with a single login at hour 3,
`detectUnusualActivity` emits exactly the one finding naming hour 3; in
general, the single unusual-hours finding is present (first) exactly when
some timeline event falls in hours 0–4, it names exactly the affected hours,
and no hours finding exists otherwise. -/
theorem C7_unusualHours :
    detectUnusualActivity c7Logs = ["Unusual login hours detected: 3:00"] ∧
    ∀ logs : List Record,
      ((∃ e ∈ getLoginTimeline logs, e.timestamp.hour ≤ 4) →
        detectUnusualActivity logs =
          hoursMsg (unusualHours (getLoginTimeline logs)) ::
            multiComputerFindings (getLoginTimeline logs)) ∧
      ((¬ ∃ e ∈ getLoginTimeline logs, e.timestamp.hour ≤ 4) →
        detectUnusualActivity logs =
          multiComputerFindings (getLoginTimeline logs)) ∧
      ∀ h, h ∈ unusualHours (getLoginTimeline logs) ↔
        h ≤ 4 ∧ ∃ e ∈ getLoginTimeline logs, e.timestamp.hour = h := by
  refine ⟨by decide, ?_⟩
  intro logs
  refine ⟨?_, ?_, mem_unusualHours _⟩
  · intro hex
    have hne := (unusualHours_ne_nil _).mpr hex
    cases h2 : unusualHours (getLoginTimeline logs) with
    | nil => exact absurd h2 hne
    | cons a as => simp [detectUnusualActivity, hoursFindings, h2]
  · intro hnex
    have hnil : unusualHours (getLoginTimeline logs) = [] := by
      by_contra hne
      exact hnex ((unusualHours_ne_nil _).mp hne)
    simp [detectUnusualActivity, hoursFindings, hnil]

/-- C7 witness: the general part applied to the concrete one-login record
set. -/
theorem C7_witness :
    detectUnusualActivity c7Logs =
      hoursMsg (unusualHours (getLoginTimeline c7Logs)) ::
        multiComputerFindings (getLoginTimeline c7Logs) :=
  ((C7_unusualHours.2 c7Logs).1) (by decide)

/-! ## Totality on non-matching data -/

theorem foldl_skip {α β : Type} (f : β → α → β) (p : α → Bool) :
    ∀ (l : List α) (acc : β), (∀ a ∈ l, p a = false) →
      l.foldl (fun acc a => if p a then f acc a else acc) acc = acc := by
  intro l
  induction l with
  | nil => intro acc _; rfl
  | cons a rest ih =>
      intro acc h
      rw [List.foldl_cons, if_neg (by simp [h a (List.mem_cons_self a rest)])]
      exact ih acc (fun b hb => h b (List.mem_cons_of_mem a hb))

/-- C9: on a record set with no matching data — no login-event ids and no
user fields — every detection operation returns the empty collection (and on
the empty record set the statistics tables are empty as well); no error
value exists in any of these result types. -/
theorem C9_total (logs : List Record) (th w : Nat)
    (H : ∀ r ∈ logs, rget? r "EventID" ≠ some "4624" ∧
         rget? r "EventID" ≠ some "4625" ∧ rget? r "User" = none) :
    countFailedLogins logs = [] ∧
    getLoginTimeline logs = [] ∧
    detectBruteForce logs th w = [] ∧
    detectSuspiciousUsers logs = [] ∧
    detectUnusualActivity logs = [] ∧
    (logs = [] → getEventStatistics logs = ⟨[], [], []⟩) := by
  have htl : getLoginTimeline logs = [] := by
    unfold getLoginTimeline
    rw [List.filterMap_eq_nil_iff]
    intro r hr
    unfold timelineEntry?
    rw [if_neg (by simp [(H r hr).1, (H r hr).2.1])]
  refine ⟨?_, htl, ?_, ?_, ?_, ?_⟩
  · unfold countFailedLogins
    rw [foldl_skip
      (fun acc log => bumpCount acc (rgetD log "User" "unknown"))
      (fun log => rget? log "EventID" == some "4625") logs []
      (fun r hr => by rw [beq_eq_false_iff_ne]; exact (H r hr).2.1)]
    rfl
  · unfold detectBruteForce
    rw [htl]
    rfl
  · unfold detectSuspiciousUsers
    exact foldl_skip
      (fun acc log => addSet acc (rgetD log "User" ""))
      (fun log => suspCond (rgetD log "User" "")) logs []
      (fun r hr => by
        have hu : rgetD r "User" "" = "" := by
          simp [rgetD, (H r hr).2.2]
        show suspCond (rgetD r "User" "") = false
        rw [hu]
        decide)
  · unfold detectUnusualActivity
    rw [htl]
    decide
  · intro h
    subst h
    rfl

/-- C9 witness: the theorem applied to the empty record set. -/
theorem C9_witness :
    countFailedLogins [] = [] ∧ getLoginTimeline [] = [] ∧
    detectBruteForce [] 3 10 = [] ∧ detectSuspiciousUsers [] = [] ∧
    detectUnusualActivity [] = [] ∧
    (([] : List Record) = [] → getEventStatistics [] = ⟨[], [], []⟩) :=
  C9_total [] 3 10 (fun r hr => absurd hr (List.not_mem_nil r))

/-! ## Store-backed brute force and its window precondition -/

theorem bfLoop_none_err (now : DateTime) (th : Nat) :
    ∀ (rows : List (String × String)) (acc : List (String × List Nat)),
      (∃ p ∈ rows, (parseIso p.2).isSome = true) →
      bfLoop now none th acc rows = Except.error "UnboundLocalError" := by
  intro rows
  induction rows with
  | nil =>
      rintro acc ⟨p, hp, _⟩
      cases hp
  | cons r rest ih =>
      rintro acc ⟨p, hp, hps⟩
      obtain ⟨u, ts⟩ := r
      cases hpi : parseIso ts with
      | some t => simp [bfLoop, hpi]
      | none =>
          rcases List.mem_cons.mp hp with rfl | hp2
          · rw [hpi] at hps; cases hps
          · simp only [bfLoop, hpi]
            exact ih acc ⟨p, hp2, hps⟩

theorem bfLoop_none_ok (now : DateTime) (th : Nat) :
    ∀ (rows : List (String × String)) (acc : List (String × List Nat)),
      (∀ p ∈ rows, parseIso p.2 = none) →
      bfLoop now none th acc rows =
        Except.ok (acc.filterMap
          (fun p => if th ≤ p.2.length then some (p.1, p.2.length) else none)) := by
  intro rows
  induction rows with
  | nil => intro acc _; rfl
  | cons r rest ih =>
      intro acc h
      obtain ⟨u, ts⟩ := r
      have hpi : parseIso ts = none := h (u, ts) (List.mem_cons_self _ _)
      simp only [bfLoop, hpi]
      exact ih acc (fun p hp => h p (List.mem_cons_of_mem _ hp))

theorem bfLoop_some_ok (now : DateTime) (m : Int) (th : Nat) :
    ∀ (rows : List (String × String)) (acc : List (String × List Nat)),
      ∃ res, bfLoop now (some m) th acc rows = Except.ok res := by
  intro rows
  induction rows with
  | nil => intro acc; exact ⟨_, rfl⟩
  | cons r rest ih =>
      intro acc
      obtain ⟨u, ts⟩ := r
      cases hpi : parseIso ts with
      | none => simpa [bfLoop, hpi] using ih acc
      | some t =>
          by_cases hle : (totalSeconds now : Int) - (totalSeconds t : Int) ≤ 60 * m
          · simpa [bfLoop, hpi, hle] using ih (addFail acc u (totalSeconds t))
          · simpa [bfLoop, hpi, hle] using ih acc

/-- C10 (amended): the store-backed `detect_brute_force` leaves `window_td`
unassigned for any window not ending in `'m'` and then raises
`UnboundLocalError` as soon as it processes a fetched row with a parseable
timestamp — but with no such row it silently returns an empty result; a
window ending in `'m'` raises `ValueError` when its prefix is not an
integer, and the operation is total (returns a result) when the prefix
parses. -/
theorem C10_window (now : DateTime) (rows : List (String × String))
    (window : String) (threshold : Nat) :
    (strEndsWith window "m" = false →
       (∃ p ∈ rows, (parseIso p.2).isSome = true) →
       detectBruteForceStore now rows window threshold =
         Except.error "UnboundLocalError") ∧
    (strEndsWith window "m" = false → (∀ p ∈ rows, parseIso p.2 = none) →
       detectBruteForceStore now rows window threshold = Except.ok []) ∧
    (strEndsWith window "m" = true → parseIntStr (strDropLast window) = none →
       detectBruteForceStore now rows window threshold =
         Except.error "ValueError") ∧
    (∀ m : Int, strEndsWith window "m" = true →
       parseIntStr (strDropLast window) = some m →
       ∃ res, detectBruteForceStore now rows window threshold = Except.ok res) := by
  refine ⟨?_, ?_, ?_, ?_⟩
  · intro hw hex
    unfold detectBruteForceStore
    rw [if_neg (by simp [hw])]
    exact bfLoop_none_err now threshold rows [] hex
  · intro hw hall
    unfold detectBruteForceStore
    rw [if_neg (by simp [hw])]
    rw [bfLoop_none_ok now threshold rows [] hall]
    rfl
  · intro hw hp
    unfold detectBruteForceStore
    rw [if_pos hw, hp]
  · intro m hw hp
    unfold detectBruteForceStore
    rw [if_pos hw, hp]
    exact bfLoop_some_ok now m threshold rows []

/-- C10 counterexample: with `window = "5h"` (not ending in `'m'`) but no
fetched failed-login rows, the operation does NOT fail — it returns an empty
result, contradicting the claim that any non-`'m'` window fails with an
unbound-local error. -/
theorem C10_counterexample :
    detectBruteForceStore ⟨2023, 1, 1, 12, 0, 0⟩ [] "5h" 5 = Except.ok [] := by
  rfl

/-- C10 witness: the amended theorem evaluated at a non-`'m'` window with
one parseable fetched row — a microsecond-bearing isoformat string of the
very shape the storage layer's wall-clock fallback writes — yielding the
unbound-local error. -/
theorem C10_witness :
    detectBruteForceStore ⟨2023, 1, 1, 12, 0, 0⟩
      [("u", "2023-01-01T11:58:00.123456")] "5h" 3 =
      Except.error "UnboundLocalError" :=
  (C10_window ⟨2023, 1, 1, 12, 0, 0⟩ [("u", "2023-01-01T11:58:00.123456")]
      "5h" 3).1
    (by decide) ⟨("u", "2023-01-01T11:58:00.123456"), by decide, by decide⟩

end LoggedIn
